import Mathlib

/-!
Verification of the keyframe-file parser of `nao_pos` against its design
specification.  The definitions below are a shallow embedding of
`src/nao_pos_server/src/parser.cpp` (namespace `parser`): `split` models
`parser::split`, `stof` / `stoi` model the C++ library functions used on
value and duration tokens, `processLine` models one iteration of the main
loop of `parser::parse`, and `parse` models the whole function.

Modelling conventions:
* Lines and tokens are `List Char` (the `char` sequence of a `std::string`).
* `float` / `double` arithmetic is modelled exactly over `ℚ`; rounding of
  decimal literals to binary floats is abstracted away (no claim below
  depends on it).
* A radian value `position_deg * M_PI / 180` is stored as the exact rational
  coefficient `position_deg / 180`; a stored coefficient `q` denotes the
  real radian value `q * π`.  Theorems about radians state this explicitly.
* The `unsigned keyFrameTime` accumulator is a `Nat` kept below `2 ^ 32` by
  reducing every addition modulo `2 ^ 32`, matching C++ `unsigned` (+)
  `int` arithmetic.
* The parser distinguishes its failure sites only by the log message it
  emits before returning; `ParseError` names those sites.
-/

namespace parser

/-- Model of `nao_lola_command_msgs::msg::JointPositions`: parallel lists of
joint indexes and radian values.  A stored rational `q` in `positions`
denotes the real radian value `q * π` (see the file comment). -/
structure JointPositions where
  indexes : List Nat
  positions : List ℚ
  deriving Repr, DecidableEq

/-- Model of `nao_lola_command_msgs::msg::JointStiffnesses`: parallel lists
of joint indexes and stiffness values. -/
structure JointStiffnesses where
  indexes : List Nat
  stiffnesses : List ℚ
  deriving Repr, DecidableEq

/-- Model of `parser::KeyFrame` as pushed at `parser.cpp:185`:
`KeyFrame{keyFrameTime, jointPositions, jointStiffnesses}`. -/
structure KeyFrame where
  time : Nat
  jointPositions : JointPositions
  jointStiffnesses : JointStiffnesses
  deriving Repr, DecidableEq

instance : Inhabited KeyFrame := ⟨⟨0, ⟨[], []⟩, ⟨[], []⟩⟩⟩

/-- Model of `parser::ParseResult` as used by `parser::parse`: a success
flag plus the keyframes pushed so far (`parseResult.keyFrames` is pushed to
incrementally at `parser.cpp:185` and is returned as-is on failure). -/
structure ParseResult where
  successful : Bool
  keyFrames : List KeyFrame
  deriving Repr, DecidableEq

/-- Failure sites of `parser::parse`, identified by the distinct error
message logged just before each `return` with `successful = false`:
* `wrongTokenCount` — token-count check, `parser.cpp:77` and `parser.cpp:111`;
* `invalidStiffnessValue` — `std::stof` failure on a stiffness token, `parser.cpp:95`;
* `invalidJointValue` — `std::stof` failure on a position token, `parser.cpp:135`;
* `inconsistentJointSet` — position-index comparison, `parser.cpp:149`;
* `invalidDuration` — `std::stoi` failure on the trailing token, `parser.cpp:161`;
* `stiffnessSizeMismatch` — size check of the custom-stiffness pairing, `parser.cpp:171`;
* `stiffnessIndexMismatch` — element check of the custom-stiffness pairing, `parser.cpp:177`. -/
inductive ParseError where
  | wrongTokenCount
  | invalidStiffnessValue
  | invalidJointValue
  | inconsistentJointSet
  | invalidDuration
  | stiffnessSizeMismatch
  | stiffnessIndexMismatch
  deriving Repr, DecidableEq

/-- Model of the C-locale `isspace` set used by `std::istream_iterator`
tokenization. -/
def isSpaceChar (c : Char) : Bool :=
  c = ' ' ∨ c = '\t' ∨ c = '\n' ∨ c = '\x0b' ∨ c = '\x0c' ∨ c = '\r'

/-- Worker for `split`: walks the characters accumulating the current token
in reverse. -/
def splitGo : List Char → List Char → List (List Char)
  | [], cur => if cur = [] then [] else [cur.reverse]
  | c :: rest, cur =>
      if isSpaceChar c then
        if cur = [] then splitGo rest [] else cur.reverse :: splitGo rest []
      else splitGo rest (c :: cur)

/-- Model of `parser::split` (`parser.cpp:206`): whitespace tokenization via
`std::istream_iterator<std::string>`, which skips runs of whitespace and
never yields empty tokens. -/
def split (line : List Char) : List (List Char) :=
  splitGo line []

/-- Value of a decimal digit character, if it is one. -/
def digitVal (c : Char) : Option Nat :=
  if '0' ≤ c ∧ c ≤ '9' then some (c.toNat - '0'.toNat) else none

/-- Longest run of leading decimal digits of a character list, together with
the remainder. -/
def takeDigits : List Char → List Nat × List Char
  | [] => ([], [])
  | c :: rest =>
      match digitVal c with
      | some d => let p := takeDigits rest; (d :: p.1, p.2)
      | none => ([], c :: rest)

/-- Value of a digit run read in base 10. -/
def digitsVal (ds : List Nat) : Nat :=
  ds.foldl (fun a d => 10 * a + d) 0

/-- Application of a decimal exponent to a rational mantissa. -/
def applyExp (q : ℚ) (e : ℤ) : ℚ :=
  if 0 ≤ e then q * 10 ^ e.toNat else q / 10 ^ (-e).toNat

/-- Signed digit run for the exponent part of a float literal; returns
`none` when no digit follows (in which case `strtof` does not consume the
exponent part at all, which leaves the value unchanged). -/
def expVal : List Char → Option ℤ
  | '-' :: r => (match takeDigits r with
      | ([], _) => none
      | (ds, _) => some (-(digitsVal ds : ℤ)))
  | '+' :: r => (match takeDigits r with
      | ([], _) => none
      | (ds, _) => some (digitsVal ds : ℤ))
  | r => (match takeDigits r with
      | ([], _) => none
      | (ds, _) => some (digitsVal ds : ℤ))

/-- Unsigned decimal-float prefix: mantissa digits with optional fraction,
then an optional exponent.  Returns `none` when no digit is found. -/
def stofCore (s : List Char) : Option ℚ :=
  let ip := takeDigits s
  let fp := match ip.2 with
    | '.' :: r => takeDigits r
    | _ => ([], ip.2)
  if ip.1 = [] ∧ fp.1 = [] then none
  else
    let mant : ℚ := (digitsVal ip.1 : ℚ) + (digitsVal fp.1 : ℚ) / 10 ^ fp.1.length
    let rest := match ip.2 with
      | '.' :: r => (takeDigits r).2
      | _ => ip.2
    match rest with
    | 'e' :: r => (match expVal r with
        | some e => some (applyExp mant e)
        | none => some mant)
    | 'E' :: r => (match expVal r with
        | some e => some (applyExp mant e)
        | none => some mant)
    | _ => some mant

/-- Model of `std::stof` on a whitespace-free token: the value of the
longest valid decimal floating prefix, or `none` when no conversion can be
performed (C++ throws `std::invalid_argument`, the case caught at
`parser.cpp:95` and `parser.cpp:135`).  Trailing characters after a valid
prefix are ignored by `std::stof` and so by this model.  Hexadecimal,
infinity and NaN spellings, float rounding, and `std::out_of_range` (which
`parser::parse` does not catch) are outside the model. -/
def stof (tok : List Char) : Option ℚ :=
  match tok with
  | '-' :: r => (match stofCore r with
      | some v => some (-v)
      | none => none)
  | '+' :: r => stofCore r
  | r => stofCore r

/-- Model of `std::stoi` on a whitespace-free token: optional sign then at
least one decimal digit, trailing characters ignored; `none` when no digit
is found (C++ throws `std::invalid_argument`, caught at `parser.cpp:161`).
The value is an unbounded integer; `int` overflow raises
`std::out_of_range`, which `parser::parse` does not catch and which is
outside the model. -/
def stoi (tok : List Char) : Option ℤ :=
  match tok with
  | '-' :: r => (match takeDigits r with
      | ([], _) => none
      | (ds, _) => some (-(digitsVal ds : ℤ)))
  | '+' :: r => (match takeDigits r with
      | ([], _) => none
      | (ds, _) => some (digitsVal ds : ℤ))
  | r => (match takeDigits r with
      | ([], _) => none
      | (ds, _) => some (digitsVal ds : ℤ))

/-- Model of `line.front()` (`parser.cpp:72` and `parser.cpp:106`).  For a
zero-length line the C++ call violates the precondition of
`std::string::front` (undefined behavior per the C++ standard); the model
uses the de-facto libstdc++ result, the null terminator, under which such a
line is classified as ignored. -/
def lineFront (line : List Char) : Char :=
  line.headD (Char.ofNat 0)

/-- The unset sentinel token `-` (`parser.cpp:90` and `parser.cpp:125`). -/
def dash : List Char := [ '-' ]

/-- Carry-over state of the loop of `parser::parse` (`parser.cpp:64`-`69`),
together with the keyframes accumulated in `parseResult`
(`parser.cpp:185`). -/
structure PState where
  keyFrameTime : Nat
  jointStiffnesses : JointStiffnesses
  customStiffnesses : Bool
  firstPosLine : Bool
  prevJointPositions : JointPositions
  keyFrames : List KeyFrame
  deriving Repr, DecidableEq

/-- Initial state of `parser::parse` (`parser.cpp:62`-`69`):
default-constructed messages, zero clock, no custom stiffness pending, no
position line seen. -/
def initState : PState :=
  ⟨0, ⟨[], []⟩, false, true, ⟨[], []⟩, []⟩

/-- Model of the stiffness-token loop (`parser.cpp:87`-`104`): for each
token position in `is` (the loop runs it on `[1, …, NUMJOINTS]`), skip the
unset sentinel, otherwise parse the token with `stof` and append
`(position - 1, value)` to the accumulator; a failed parse aborts. -/
def stiffLoop (toks : List (List Char)) (js : JointStiffnesses) :
    List Nat → Except ParseError JointStiffnesses
  | [] => .ok js
  | i :: rest =>
      let s := toks.getD i []
      if s = dash then stiffLoop toks js rest
      else
        match stof s with
        | some v => stiffLoop toks ⟨js.indexes ++ [i - 1], js.stiffnesses ++ [v]⟩ rest
        | none => .error .invalidStiffnessValue

/-- Model of the position-token loop (`parser.cpp:122`-`144`): for each
token position in `is`, skip the unset sentinel, otherwise parse the token
with `stof`, append `(position - 1, degrees / 180)` to the position message
(the stored rational denotes `degrees * π / 180` radians, see the file
comment), and, when no custom stiffness is pending, also append an implicit
full-stiffness entry `(position - 1, 1.0)`; a failed parse aborts. -/
def posLoop (custom : Bool) (toks : List (List Char)) (jp : JointPositions)
    (js : JointStiffnesses) : List Nat → Except ParseError (JointPositions × JointStiffnesses)
  | [] => .ok (jp, js)
  | i :: rest =>
      let s := toks.getD i []
      if s = dash then posLoop custom toks jp js rest
      else
        match stof s with
        | some deg =>
            posLoop custom toks ⟨jp.indexes ++ [i - 1], jp.positions ++ [deg / 180]⟩
              (if custom then js
               else ⟨js.indexes ++ [i - 1], js.stiffnesses ++ [(1 : ℚ)]⟩) rest
        | none => .error .invalidJointValue

/-- Model of the tail of the position branch (`parser.cpp:146`-`195`): the
cross-frame consistency check, the duration parse and the cumulative clock
update (C++ `unsigned += int`, i.e. addition modulo `2 ^ 32`), the pairing
checks against a pending custom stiffness list, the keyframe emission, and
the reset of the pending-stiffness accumulator and flag. -/
def posFinish (st : PState) (toks : List (List Char)) (jp : JointPositions)
    (js : JointStiffnesses) : Except ParseError PState :=
  if st.firstPosLine = false ∧ jp.indexes ≠ st.prevJointPositions.indexes then
    .error .inconsistentJointSet
  else
    match stoi (toks.getLastD []) with
    | none => .error .invalidDuration
    | some d =>
        if st.customStiffnesses = true ∧ jp.indexes.length ≠ js.indexes.length then
          .error .stiffnessSizeMismatch
        else if st.customStiffnesses = true ∧ jp.indexes ≠ js.indexes then
          .error .stiffnessIndexMismatch
        else
          .ok ⟨(((st.keyFrameTime : ℤ) + d) % (2 ^ 32)).toNat, ⟨[], []⟩, false, false, jp,
            st.keyFrames ++ [⟨(((st.keyFrameTime : ℤ) + d) % (2 ^ 32)).toNat, jp, js⟩]⟩

/-- Model of one iteration of the line loop of `parser::parse`
(`parser.cpp:71`-`200`), classified by the first character of the line: `$`
runs the stiffness branch (token-count check, then the stiffness loop with
the pending flag raised), `!` runs the position branch (token-count check,
position loop, then `posFinish`), anything else is ignored.  `nj` stands
for `nao_lola_command_msgs::msg::JointIndexes::NUMJOINTS`. -/
def processLine (nj : Nat) (st : PState) (line : List Char) : Except ParseError PState :=
  if lineFront line = '$' then
    let toks := split line
    if toks.length ≠ nj + 1 then .error .wrongTokenCount
    else
      match stiffLoop toks st.jointStiffnesses (List.range' 1 nj) with
      | .ok js => .ok { st with jointStiffnesses := js, customStiffnesses := true }
      | .error e => .error e
  else if lineFront line = '!' then
    let toks := split line
    if toks.length ≠ nj + 2 then .error .wrongTokenCount
    else
      match posLoop st.customStiffnesses toks ⟨[], []⟩ st.jointStiffnesses (List.range' 1 nj) with
      | .ok p => posFinish st toks p.1 p.2
      | .error e => .error e
  else .ok st

/-- Fold of `processLine` over the input lines.  On failure the error is
paired with the state at the failing line, whose `keyFrames` component is
exactly `parseResult.keyFrames` at the C++ `return` (the keyframe push at
`parser.cpp:185` happens only after every check of its line has passed). -/
def parseLines (nj : Nat) (st : PState) :
    List (List Char) → Except (ParseError × PState) PState
  | [] => .ok st
  | l :: rest =>
      match processLine nj st l with
      | .ok st' => parseLines nj st' rest
      | .error e => .error (e, st)

/-- Model of `parser::parse` (`parser.cpp:60`-`204`): runs the line loop
from the initial state and returns `parseResult`; the `keyFrames` field
holds every keyframe pushed before the point the function returned, whether
it succeeded or not. -/
def parse (nj : Nat) (input : List String) : ParseResult :=
  match parseLines nj initState (input.map String.data) with
  | .ok st => ⟨true, st.keyFrames⟩
  | .error e => ⟨false, e.2.keyFrames⟩

/-- State of the loop of `parser::parse` after consuming `input` without
failure, `none` when some line failed. -/
def parseState (nj : Nat) (input : List String) : Option PState :=
  match parseLines nj initState (input.map String.data) with
  | .ok st => some st
  | .error _ => none

/-- Failure site at which `parser::parse` returned, `none` on success. -/
def parseError (nj : Nat) (input : List String) : Option ParseError :=
  match parseLines nj initState (input.map String.data) with
  | .ok _ => none
  | .error e => some e.1

/-- Value of `nao_lola_command_msgs::msg::JointIndexes::NUMJOINTS`.
Modelled from the spec: the constant is declared in the external
`nao_lola_command_msgs` package (not under `src/`); it is the joint count
of the NAO robot, 25, shared with the actuation layer. -/
def NUMJOINTS : Nat := 25

/-- Joint indexes explicitly set at token positions `is` of a tokenized
line: position `i` contributes `i - 1` unless its token is the unset
sentinel. -/
def idxsOf (toks : List (List Char)) (is : List Nat) : List Nat :=
  (is.filter (fun i => toks.getD i [] ≠ dash)).map (fun i => i - 1)

/-- Degree values parsed at the non-sentinel token positions `is` of a
tokenized line. -/
def degsOf (toks : List (List Char)) (is : List Nat) : List ℚ :=
  is.filterMap (fun i => if toks.getD i [] = dash then none else stof (toks.getD i []))

/-- Joint-index sequence a position or stiffness directive line sets,
computed syntactically from the line. -/
def lineIndexes (nj : Nat) (line : List Char) : List Nat :=
  idxsOf (split line) (List.range' 1 nj)

/-- Degree values a position directive line sets, in token order. -/
def lineDegrees (nj : Nat) (line : List Char) : List ℚ :=
  degsOf (split line) (List.range' 1 nj)

/-- Check that every value token of a directive line either is the unset
sentinel or parses under `stof`. -/
def tokensOk (nj : Nat) (line : List Char) : Bool :=
  (List.range' 1 nj).all
    (fun i => (split line).getD i [] = dash ∨ ((stof ((split line).getD i [])).isSome = true))

/-- Durations of the position-directive lines of an input, in line order:
for each line whose first character is `!`, the `stoi` value of its last
token (present whenever the line passes the duration parse). -/
def posDurations (lines : List (List Char)) : List ℤ :=
  lines.filterMap (fun l => if lineFront l = '!' then stoi ((split l).getLastD []) else none)

/-- Cumulative clock values produced from a start value by adding each
duration in turn modulo `2 ^ 32`, as the `unsigned keyFrameTime +=
duration` update does (`parser.cpp:160`). -/
def cumTimes (t : Nat) : List ℤ → List Nat
  | [] => []
  | d :: ds =>
      let t' : Nat := (((t : ℤ) + d) % (2 ^ 32)).toNat
      t' :: cumTimes t' ds

/-- Reachability invariant of the loop state: before any position line no
keyframe was emitted, every emitted keyframe carries the index sequence of
the previous position line, and the pending-stiffness accumulator is empty
whenever no custom stiffness is pending. -/
def StInv (st : PState) : Prop :=
  (st.firstPosLine = true → st.keyFrames = []) ∧
  (∀ kf ∈ st.keyFrames, kf.jointPositions.indexes = st.prevJointPositions.indexes) ∧
  (st.customStiffnesses = false → st.jointStiffnesses = ⟨[], []⟩)

end parser

namespace parser

/-- Splitting `parseLines` across an append of line lists. -/
theorem parseLines_append (nj : Nat) (st : PState) (xs ys : List (List Char)) :
    parseLines nj st (xs ++ ys) =
      match parseLines nj st xs with
      | .ok st' => parseLines nj st' ys
      | .error e => .error e := by
  induction xs generalizing st with
  | nil => simp [parseLines]
  | cons l rest ih =>
      simp only [List.cons_append, parseLines]
      cases processLine nj st l with
      | ok st' => exact ih st'
      | error e => rfl

/-- Lines that start with neither marker are ignored and leave the state
unchanged. -/
theorem processLine_ignored {line : List Char} (nj : Nat) (st : PState)
    (h1 : lineFront line ≠ '$') (h2 : lineFront line ≠ '!') :
    processLine nj st line = .ok st := by
  unfold processLine
  rw [if_neg h1, if_neg h2]

/-- Unfolding of the stiffness branch of `processLine`. -/
theorem processLine_stiff {line : List Char} (nj : Nat) (st : PState)
    (h : lineFront line = '$') :
    processLine nj st line =
      (if (split line).length ≠ nj + 1 then .error .wrongTokenCount
       else
         match stiffLoop (split line) st.jointStiffnesses (List.range' 1 nj) with
         | .ok js => .ok { st with jointStiffnesses := js, customStiffnesses := true }
         | .error e => .error e) := by
  unfold processLine
  rw [if_pos h]

/-- Unfolding of the position branch of `processLine`. -/
theorem processLine_pos {line : List Char} (nj : Nat) (st : PState)
    (h : lineFront line = '!') :
    processLine nj st line =
      (if (split line).length ≠ nj + 2 then .error .wrongTokenCount
       else
         match posLoop st.customStiffnesses (split line) ⟨[], []⟩ st.jointStiffnesses
             (List.range' 1 nj) with
         | .ok p => posFinish st (split line) p.1 p.2
         | .error e => .error e) := by
  have hne : lineFront line ≠ '$' := by rw [h]; decide
  unfold processLine
  rw [if_neg hne, if_pos h]

end parser

namespace parser

/-- Scanning a sentinel token position contributes no joint index. -/
theorem idxsOf_cons_dash {toks : List (List Char)} {i : Nat} {rest : List Nat}
    (h : toks.getD i [] = dash) : idxsOf toks (i :: rest) = idxsOf toks rest := by
  unfold idxsOf
  rw [List.filter_cons, if_neg (by simpa using h)]

/-- Scanning a set token position contributes the joint index `i - 1`. -/
theorem idxsOf_cons_set {toks : List (List Char)} {i : Nat} {rest : List Nat}
    (h : toks.getD i [] ≠ dash) :
    idxsOf toks (i :: rest) = (i - 1) :: idxsOf toks rest := by
  unfold idxsOf
  rw [List.filter_cons, if_pos (by simpa using h), List.map_cons]

/-- Scanning a sentinel token position contributes no degree value. -/
theorem degsOf_cons_dash {toks : List (List Char)} {i : Nat} {rest : List Nat}
    (h : toks.getD i [] = dash) : degsOf toks (i :: rest) = degsOf toks rest := by
  unfold degsOf
  exact List.filterMap_cons_none (by rw [if_pos h])

/-- Scanning a set, `stof`-parsable token position contributes its value. -/
theorem degsOf_cons_set {toks : List (List Char)} {i : Nat} {rest : List Nat} {v : ℚ}
    (h : toks.getD i [] ≠ dash) (hst : stof (toks.getD i []) = some v) :
    degsOf toks (i :: rest) = v :: degsOf toks rest := by
  unfold degsOf
  exact List.filterMap_cons_some (by rw [if_neg h, hst])

/-- Characterization of a successful run of the position-token loop: the
position message gains the syntactic index/degree content of the scanned
token positions, and the stiffness message is untouched when a custom
stiffness is pending, or gains the same indexes with full stiffness
otherwise. -/
theorem posLoop_ok (c : Bool) (toks : List (List Char)) (is : List Nat) :
    ∀ pi pv si sv jp js,
      posLoop c toks ⟨pi, pv⟩ ⟨si, sv⟩ is = .ok (jp, js) →
      jp.indexes = pi ++ idxsOf toks is ∧
      jp.positions = pv ++ (degsOf toks is).map (fun d => d / 180) ∧
      (c = true → js = ⟨si, sv⟩) ∧
      (c = false → js.indexes = si ++ idxsOf toks is ∧
        js.stiffnesses = sv ++ List.replicate (idxsOf toks is).length (1 : ℚ)) := by
  induction is with
  | nil =>
      intro pi pv si sv jp js h
      simp only [posLoop] at h
      cases h
      simp [idxsOf, degsOf]
  | cons i rest ih =>
      intro pi pv si sv jp js h
      by_cases hd : toks.getD i [] = dash
      · rw [posLoop, if_pos hd] at h
        rw [idxsOf_cons_dash hd, degsOf_cons_dash hd]
        exact ih pi pv si sv jp js h
      · rw [posLoop, if_neg hd] at h
        cases hst : stof (toks.getD i []) with
        | none => rw [hst] at h; exact Except.noConfusion h
        | some v =>
            rw [hst] at h
            rw [idxsOf_cons_set hd, degsOf_cons_set hd hst]
            by_cases hc : c = true
            · rw [if_pos hc] at h
              have h2 := ih (pi ++ [i - 1]) (pv ++ [v / 180]) si sv jp js h
              refine ⟨?_, ?_, fun _ => h2.2.2.1 hc, fun hcf => ?_⟩
              · rw [h2.1, List.append_assoc]; rfl
              · rw [h2.2.1, List.append_assoc]; rfl
              · rw [hcf] at hc; exact absurd hc (by decide)
            · rw [if_neg hc] at h
              have hcf : c = false := by revert hc; cases c <;> simp
              have h2 := ih (pi ++ [i - 1]) (pv ++ [v / 180]) (si ++ [i - 1]) (sv ++ [(1 : ℚ)])
                jp js h
              refine ⟨?_, ?_, fun hct => absurd hct hc, fun _ => ⟨?_, ?_⟩⟩
              · rw [h2.1, List.append_assoc]; rfl
              · rw [h2.2.1, List.append_assoc]; rfl
              · rw [(h2.2.2.2 hcf).1, List.append_assoc]; rfl
              · rw [(h2.2.2.2 hcf).2, List.append_assoc, List.length_cons,
                  List.replicate_succ]; rfl

/-- A scanned token position whose token is neither the unset sentinel nor
`stof`-parsable makes the position-token loop abort. -/
theorem posLoop_bad (c : Bool) (toks : List (List Char)) {is : List Nat} {i : Nat}
    (hi : i ∈ is) (hd : toks.getD i [] ≠ dash) (hs : stof (toks.getD i []) = none) :
    ∀ jp js, posLoop c toks jp js is = .error .invalidJointValue := by
  induction is with
  | nil => cases hi
  | cons j rest ih =>
      intro jp js
      by_cases hdj : toks.getD j [] = dash
      · rw [posLoop, if_pos hdj]
        have hij : i ≠ j := fun he => hd (he ▸ hdj)
        exact ih (List.mem_of_ne_of_mem hij hi) jp js
      · rw [posLoop, if_neg hdj]
        cases hst : stof (toks.getD j []) with
        | none => rfl
        | some v =>
            have hij : i ≠ j := by
              intro he; rw [he, hst] at hs; exact Option.noConfusion hs
            exact ih (List.mem_of_ne_of_mem hij hi) _ _

/-- When every scanned token is the unset sentinel or `stof`-parsable, the
position-token loop succeeds. -/
theorem posLoop_ok_of_valid (c : Bool) (toks : List (List Char)) (is : List Nat)
    (hv : ∀ i ∈ is, toks.getD i [] = dash ∨ (stof (toks.getD i [])).isSome = true) :
    ∀ jp js, ∃ p, posLoop c toks jp js is = .ok p := by
  induction is with
  | nil => intro jp js; exact ⟨(jp, js), rfl⟩
  | cons i rest ih =>
      intro jp js
      have hrest : ∀ j ∈ rest, toks.getD j [] = dash ∨ (stof (toks.getD j [])).isSome = true :=
        fun j hj => hv j (List.mem_cons_of_mem _ hj)
      by_cases hd : toks.getD i [] = dash
      · rw [posLoop, if_pos hd]; exact ih hrest jp js
      · cases hst : stof (toks.getD i []) with
        | none =>
            rcases hv i (List.mem_cons_self _ _) with h | h
            · exact absurd h hd
            · rw [hst] at h; exact Bool.noConfusion h
        | some v =>
            rw [posLoop, if_neg hd, hst]
            exact ih hrest _ _

/-- A scanned token position whose token is neither the unset sentinel nor
`stof`-parsable makes the stiffness-token loop abort. -/
theorem stiffLoop_bad (toks : List (List Char)) {is : List Nat} {i : Nat}
    (hi : i ∈ is) (hd : toks.getD i [] ≠ dash) (hs : stof (toks.getD i []) = none) :
    ∀ js, stiffLoop toks js is = .error .invalidStiffnessValue := by
  induction is with
  | nil => cases hi
  | cons j rest ih =>
      intro js
      by_cases hdj : toks.getD j [] = dash
      · rw [stiffLoop, if_pos hdj]
        have hij : i ≠ j := fun he => hd (he ▸ hdj)
        exact ih (List.mem_of_ne_of_mem hij hi) js
      · rw [stiffLoop, if_neg hdj]
        cases hst : stof (toks.getD j []) with
        | none => rfl
        | some v =>
            have hij : i ≠ j := by
              intro he; rw [he, hst] at hs; exact Option.noConfusion hs
            exact ih (List.mem_of_ne_of_mem hij hi) _

end parser

namespace parser

/-- Unfolding of `parseLines` on a cons cell. -/
theorem parseLines_cons (nj : Nat) (st : PState) (l : List Char) (rest : List (List Char)) :
    parseLines nj st (l :: rest) =
      match processLine nj st l with
      | .ok st' => parseLines nj st' rest
      | .error e => .error (e, st) := rfl

/-- Inversion of a successful stiffness branch: only the pending-stiffness
accumulator and flag change. -/
theorem processLine_stiff_ok {line : List Char} {nj : Nat} {st st' : PState}
    (h : lineFront line = '$') (hok : processLine nj st line = .ok st') :
    st'.keyFrames = st.keyFrames ∧ st'.keyFrameTime = st.keyFrameTime ∧
    st'.firstPosLine = st.firstPosLine ∧ st'.prevJointPositions = st.prevJointPositions ∧
    st'.customStiffnesses = true := by
  rw [processLine_stiff nj st h] at hok
  by_cases hlen : (split line).length ≠ nj + 1
  · rw [if_pos hlen] at hok; exact Except.noConfusion hok
  · rw [if_neg hlen] at hok
    cases hsl : stiffLoop (split line) st.jointStiffnesses (List.range' 1 nj) with
    | ok js => rw [hsl] at hok; cases hok; exact ⟨rfl, rfl, rfl, rfl, rfl⟩
    | error e => rw [hsl] at hok; exact Except.noConfusion hok

/-- Inversion of a successful position branch: the line passed the
token-count check, the token loop, the cross-frame consistency check, the
duration parse and the custom-stiffness pairing checks, and the new state
records the emitted keyframe. -/
theorem processLine_pos_ok {line : List Char} {nj : Nat} {st st' : PState}
    (h : lineFront line = '!') (hok : processLine nj st line = .ok st') :
    ∃ jp js d,
      (split line).length = nj + 2 ∧
      posLoop st.customStiffnesses (split line) ⟨[], []⟩ st.jointStiffnesses
        (List.range' 1 nj) = .ok (jp, js) ∧
      (st.firstPosLine = false → jp.indexes = st.prevJointPositions.indexes) ∧
      stoi ((split line).getLastD []) = some d ∧
      (st.customStiffnesses = true → jp.indexes = js.indexes) ∧
      st' = ⟨(((st.keyFrameTime : ℤ) + d) % (2 ^ 32)).toNat, ⟨[], []⟩, false, false, jp,
        st.keyFrames ++ [⟨(((st.keyFrameTime : ℤ) + d) % (2 ^ 32)).toNat, jp, js⟩]⟩ := by
  rw [processLine_pos nj st h] at hok
  by_cases hlen : (split line).length ≠ nj + 2
  · rw [if_pos hlen] at hok; exact Except.noConfusion hok
  · rw [if_neg hlen] at hok
    cases hpl : posLoop st.customStiffnesses (split line) ⟨[], []⟩ st.jointStiffnesses
        (List.range' 1 nj) with
    | error e => rw [hpl] at hok; exact Except.noConfusion hok
    | ok p =>
        obtain ⟨jp, js⟩ := p
        rw [hpl] at hok
        have hok2 : posFinish st (split line) jp js = Except.ok st' := hok
        unfold posFinish at hok2
        split at hok2
        next hc => exact Except.noConfusion hok2
        next hc =>
          push_neg at hc
          split at hok2
          next hdur => exact Except.noConfusion hok2
          next d hdur =>
            split at hok2
            next hsz => exact Except.noConfusion hok2
            next hsz =>
              split at hok2
              next hix => exact Except.noConfusion hok2
              next hix =>
                push_neg at hix
                cases hok2
                exact ⟨jp, js, d, not_ne_iff.mp hlen, rfl, hc, hdur, hix, rfl⟩

/-- The reachability invariant is preserved by every successful line step. -/
theorem processLine_inv {nj : Nat} {st st' : PState} {line : List Char}
    (hInv : StInv st) (hok : processLine nj st line = .ok st') : StInv st' := by
  by_cases h1 : lineFront line = '$'
  · obtain ⟨hkf, ht, hfp, hprev, hcs⟩ := processLine_stiff_ok h1 hok
    refine ⟨fun hf => ?_, fun kf hk => ?_, fun hc => ?_⟩
    · rw [hkf]; exact hInv.1 (hfp ▸ hf)
    · rw [hprev]; exact hInv.2.1 kf (hkf ▸ hk)
    · rw [hcs] at hc; exact Bool.noConfusion hc
  · by_cases h2 : lineFront line = '!'
    · obtain ⟨jp, js, d, hlen, hpl, hcons, hdur, hcust, hst'⟩ := processLine_pos_ok h2 hok
      subst hst'
      refine ⟨fun hf => Bool.noConfusion hf, fun kf hk => ?_, fun _ => rfl⟩
      rcases List.mem_append.mp hk with hk | hk
      · cases hb : st.firstPosLine with
        | false =>
            have h3 := hInv.2.1 kf hk
            have h4 := hcons hb
            simp only []
            rw [h3, h4]
        | true =>
            rw [hInv.1 hb] at hk
            cases hk
      · rw [List.mem_singleton.mp hk]
    · rw [processLine_ignored nj st h1 h2] at hok
      cases hok
      exact hInv

/-- The reachability invariant is preserved by any successful run of the
line loop. -/
theorem parseLines_inv {nj : Nat} {st stf : PState} {lines : List (List Char)}
    (hInv : StInv st) (h : parseLines nj st lines = .ok stf) : StInv stf := by
  induction lines generalizing st with
  | nil => cases h; exact hInv
  | cons l rest ih =>
      rw [parseLines_cons] at h
      cases hpl : processLine nj st l with
      | ok st' => rw [hpl] at h; exact ih (processLine_inv hInv hpl) h
      | error e => rw [hpl] at h; exact Except.noConfusion h

/-- The initial state satisfies the reachability invariant. -/
theorem initState_inv : StInv initState :=
  ⟨fun _ => rfl, fun kf hk => absurd hk (List.not_mem_nil kf), fun _ => rfl⟩

/-- The keyframe list only ever grows across a successful run of the line
loop. -/
theorem parseLines_grow {nj : Nat} {st stf : PState} {lines : List (List Char)}
    (h : parseLines nj st lines = .ok stf) :
    ∃ t, stf.keyFrames = st.keyFrames ++ t := by
  induction lines generalizing st with
  | nil => cases h; exact ⟨[], (List.append_nil _).symm⟩
  | cons l rest ih =>
      rw [parseLines_cons] at h
      cases hpl : processLine nj st l with
      | error e => rw [hpl] at h; exact Except.noConfusion h
      | ok st' =>
          rw [hpl] at h
          obtain ⟨t2, ht2⟩ := ih h
          by_cases h1 : lineFront l = '$'
          · obtain ⟨hkf, _, _, _, _⟩ := processLine_stiff_ok h1 hpl
            exact ⟨t2, by rw [ht2, hkf]⟩
          · by_cases h2 : lineFront l = '!'
            · obtain ⟨jp, js, d, _, _, _, _, _, hst'⟩ := processLine_pos_ok h2 hpl
              rw [hst'] at ht2
              exact ⟨⟨(((st.keyFrameTime : ℤ) + d) % (2 ^ 32)).toNat, jp, js⟩ :: t2,
                by rw [ht2]; simp⟩
            · rw [processLine_ignored nj st h1 h2] at hpl
              cases hpl
              exact ⟨t2, ht2⟩

/-- A failing run of the line loop decomposes as a successful prefix, the
failing line, and the unprocessed remainder; the state returned with the
error is exactly the state reached after the prefix. -/
theorem parseLines_fail {nj : Nat} {st stf : PState} {lines : List (List Char)}
    {e : ParseError} (h : parseLines nj st lines = .error (e, stf)) :
    ∃ pre l post, lines = pre ++ l :: post ∧ parseLines nj st pre = .ok stf ∧
      processLine nj stf l = .error e := by
  induction lines generalizing st with
  | nil => exact Except.noConfusion h
  | cons l rest ih =>
      rw [parseLines_cons] at h
      cases hpl : processLine nj st l with
      | ok st' =>
          rw [hpl] at h
          obtain ⟨pre, l2, post, h1, h2, h3⟩ := ih h
          refine ⟨l :: pre, l2, post, by rw [h1]; rfl, ?_, h3⟩
          rw [parseLines_cons, hpl]
          exact h2
      | error e2 =>
          rw [hpl] at h
          cases h
          exact ⟨[], l, rest, rfl, rfl, hpl⟩

/-- All keyframes reachable from a state satisfying the invariant carry the
same position-index sequence. -/
theorem parseLines_uniform {nj : Nat} {st stf : PState} {lines : List (List Char)}
    (hInv : StInv st) (h : parseLines nj st lines = .ok stf) {kf kf' : KeyFrame}
    (hkf : kf ∈ st.keyFrames) (hkf' : kf' ∈ stf.keyFrames) :
    kf'.jointPositions.indexes = kf.jointPositions.indexes := by
  have hInvf := parseLines_inv hInv h
  obtain ⟨t, ht⟩ := parseLines_grow h
  have h1 : kf ∈ stf.keyFrames := by rw [ht]; exact List.mem_append_left _ hkf
  rw [hInvf.2.1 kf' hkf', hInvf.2.1 kf h1]

end parser

namespace parser

/-- Each successful line step appends one keyframe per position line and
leaves the list alone otherwise. -/
theorem parseLines_count {nj : Nat} {st stf : PState} {lines : List (List Char)}
    (h : parseLines nj st lines = .ok stf) :
    stf.keyFrames.length = st.keyFrames.length + lines.countP (fun l => lineFront l = '!') := by
  induction lines generalizing st with
  | nil => cases h; simp
  | cons l rest ih =>
      rw [parseLines_cons] at h
      cases hpl : processLine nj st l with
      | error e => rw [hpl] at h; exact Except.noConfusion h
      | ok st' =>
          rw [hpl] at h
          have hrest := ih h
          rw [List.countP_cons]
          by_cases h2 : lineFront l = '!'
          · obtain ⟨jp, js, d, _, _, _, _, _, hst'⟩ := processLine_pos_ok h2 hpl
            rw [hst'] at hrest
            simp only [PState.keyFrames] at hrest
            rw [hrest, List.length_append]
            simp [h2]
            omega
          · have hkf : st'.keyFrames = st.keyFrames := by
              by_cases h1 : lineFront l = '$'
              · exact (processLine_stiff_ok h1 hpl).1
              · rw [processLine_ignored nj st h1 h2] at hpl; cases hpl; rfl
            rw [hkf] at hrest
            simp [hrest, h2]

/-- The duration list of an input starting with a position line whose
trailing token parses. -/
theorem posDurations_cons_pos {l : List Char} {rest : List (List Char)} {d : ℤ}
    (h2 : lineFront l = '!') (hdur : stoi ((split l).getLastD []) = some d) :
    posDurations (l :: rest) = d :: posDurations rest := by
  unfold posDurations
  exact List.filterMap_cons_some (by rw [if_pos h2]; exact hdur)

/-- The duration list of an input starting with a non-position line. -/
theorem posDurations_cons_other {l : List Char} {rest : List (List Char)}
    (h2 : lineFront l ≠ '!') : posDurations (l :: rest) = posDurations rest := by
  unfold posDurations
  exact List.filterMap_cons_none (by rw [if_neg h2])

/-- The emitted keyframe times of a successful run are exactly the
cumulative modular clock over the durations of its position lines, and the
final clock is the last cumulative value. -/
theorem parseLines_times {nj : Nat} {st stf : PState} {lines : List (List Char)}
    (h : parseLines nj st lines = .ok stf) :
    stf.keyFrames.map KeyFrame.time =
      st.keyFrames.map KeyFrame.time ++ cumTimes st.keyFrameTime (posDurations lines) ∧
    stf.keyFrameTime = (cumTimes st.keyFrameTime (posDurations lines)).getLastD
      st.keyFrameTime := by
  induction lines generalizing st with
  | nil => cases h; simp [posDurations, cumTimes]
  | cons l rest ih =>
      rw [parseLines_cons] at h
      cases hpl : processLine nj st l with
      | error e => rw [hpl] at h; exact Except.noConfusion h
      | ok st' =>
          rw [hpl] at h
          obtain ⟨ihm, iht⟩ := ih h
          by_cases h2 : lineFront l = '!'
          · obtain ⟨jp, js, d, hlen, hplo, hcons, hdur, hcust, hst'⟩ :=
              processLine_pos_ok h2 hpl
            rw [posDurations_cons_pos h2 hdur]
            subst hst'
            simp only [PState.keyFrames, PState.keyFrameTime] at ihm iht
            constructor
            · rw [ihm, cumTimes]
              simp
            · rw [iht, cumTimes, List.getLastD_cons]
          · have hpres : st'.keyFrames = st.keyFrames ∧ st'.keyFrameTime = st.keyFrameTime := by
              by_cases h1 : lineFront l = '$'
              · obtain ⟨ha, hb, _, _, _⟩ := processLine_stiff_ok h1 hpl
                exact ⟨ha, hb⟩
              · rw [processLine_ignored nj st h1 h2] at hpl; cases hpl; exact ⟨rfl, rfl⟩
            rw [posDurations_cons_other h2]
            rw [hpres.1, hpres.2] at ihm
            rw [hpres.2] at iht
            exact ⟨ihm, iht⟩

/-- Length of the cumulative clock list. -/
theorem cumTimes_length (t : Nat) (ds : List ℤ) : (cumTimes t ds).length = ds.length := by
  induction ds generalizing t with
  | nil => rfl
  | cons d ds ih => simp only [cumTimes, List.length_cons, ih]

/-- The `k`-th cumulative clock value is the prefix sum of the first `k + 1`
durations reduced modulo `2 ^ 32`. -/
theorem cumTimes_getD (ds : List ℤ) : ∀ (t k : Nat), k < ds.length →
    (((cumTimes t ds).getD k 0 : Nat) : ℤ) =
      ((t : ℤ) + (ds.take (k + 1)).sum) % (2 ^ 32) := by
  induction ds with
  | nil => intro t k hk; exact absurd hk (by simp)
  | cons d ds ih =>
      intro t k hk
      cases k with
      | zero =>
          simp only [cumTimes, List.getD_cons_zero, List.take_succ_cons, List.take_zero,
            List.sum_cons, List.sum_nil, add_zero]
          rw [Int.toNat_of_nonneg (Int.emod_nonneg _ (by norm_num))]
      | succ k =>
          simp only [cumTimes, List.getD_cons_succ, List.take_succ_cons, List.sum_cons]
          have hk2 : k < ds.length := by simpa using hk
          rw [ih _ k hk2]
          rw [Int.toNat_of_nonneg (Int.emod_nonneg _ (by norm_num))]
          omega

/-- When every duration is non-negative and the total stays below `2 ^ 32`,
the cumulative clock never decreases. -/
theorem cumTimes_chain (ds : List ℤ) : ∀ t : Nat, (∀ d ∈ ds, 0 ≤ d) →
    (t : ℤ) + ds.sum < 2 ^ 32 → List.Chain' (· ≤ ·) (t :: cumTimes t ds) := by
  induction ds with
  | nil => intro t _ _; simp [cumTimes]
  | cons d ds ih =>
      intro t hnn hsum
      have hd : 0 ≤ d := hnn d (List.mem_cons_self _ _)
      have hsnn : 0 ≤ ds.sum :=
        List.sum_nonneg (fun x hx => hnn x (List.mem_cons_of_mem _ hx))
      rw [List.sum_cons] at hsum
      have hmod : ((t : ℤ) + d) % (2 ^ 32) = (t : ℤ) + d := by
        rw [Int.emod_eq_of_lt (by omega) (by omega)]
      simp only [cumTimes]
      rw [List.chain'_cons, hmod]
      refine ⟨by omega, ?_⟩
      have := ih (((t : ℤ) + d).toNat) (fun x hx => hnn x (List.mem_cons_of_mem _ hx))
        (by rw [Int.toNat_of_nonneg (by omega)]; omega)
      simpa [hmod] using this

/-- All keyframes of a successful run started in the pristine state carry
the joint-index sequence of the first position line of the input. -/
theorem parseLines_first_ref {nj : Nat} {st stf : PState} {lines : List (List Char)}
    (hInv : StInv st) (hfp : st.firstPosLine = true) (hkf0 : st.keyFrames = [])
    (h : parseLines nj st lines = .ok stf) :
    ∀ lf, lines.find? (fun l => lineFront l = '!') = some lf →
      ∀ kf ∈ stf.keyFrames, kf.jointPositions.indexes = lineIndexes nj lf := by
  induction lines generalizing st with
  | nil =>
      intro lf hlf
      exact absurd hlf (by simp)
  | cons l rest ih =>
      intro lf hlf
      rw [parseLines_cons] at h
      cases hpl : processLine nj st l with
      | error e => rw [hpl] at h; exact Except.noConfusion h
      | ok st' =>
          rw [hpl] at h
          by_cases h2 : lineFront l = '!'
          · rw [List.find?_cons_of_pos _ (by simpa using h2)] at hlf
            cases hlf
            obtain ⟨jp, js, d, hlen, hplo, hcons, hdur, hcust, hst'⟩ :=
              processLine_pos_ok h2 hpl
            have hjp : jp.indexes = lineIndexes nj l := by
              have := posLoop_ok st.customStiffnesses (split l) (List.range' 1 nj)
                [] [] st.jointStiffnesses.indexes st.jointStiffnesses.stiffnesses jp js hplo
              rw [this.1]
              rfl
            have hInv' : StInv st' := processLine_inv hInv hpl
            have hmem : (⟨(((st.keyFrameTime : ℤ) + d) % (2 ^ 32)).toNat, jp, js⟩ : KeyFrame)
                ∈ st'.keyFrames := by
              rw [hst']
              simp
            intro kf hkf
            have := parseLines_uniform hInv' h hmem hkf
            rw [this]
            exact hjp
          · rw [List.find?_cons_of_neg _ (by simpa using h2)] at hlf
            by_cases h1 : lineFront l = '$'
            · obtain ⟨ha, _, hc, _, _⟩ := processLine_stiff_ok h1 hpl
              exact ih (processLine_inv hInv hpl) (hc.trans hfp) (ha.trans hkf0) h lf hlf
            · rw [processLine_ignored nj st h1 h2] at hpl
              cases hpl
              exact ih hInv hfp hkf0 h lf hlf

end parser

namespace parser

/-- Unfolding of `parseState` on a successful run. -/
theorem parseState_eq {nj : Nat} {input : List String} {st : PState}
    (h : parseState nj input = some st) :
    parseLines nj initState (input.map String.data) = .ok st := by
  unfold parseState at h
  cases hp : parseLines nj initState (input.map String.data) with
  | ok st2 => rw [hp] at h; cases h; rfl
  | error e => rw [hp] at h; exact Option.noConfusion h

/-- A state reached by `parseState` satisfies the reachability invariant. -/
theorem parseState_holds_inv {nj : Nat} {input : List String} {st : PState}
    (h : parseState nj input = some st) : StInv st :=
  parseLines_inv initState_inv (parseState_eq h)

/-- Last element of a list extended by one element. -/
theorem getLastD_append_singleton {α : Type} (xs : List α) (x d : α) :
    (xs ++ [x]).getLastD d = x := by
  rw [List.getLastD_eq_getLast?, List.getLast?_concat]
  rfl

/-- Failure of the whole parse when a line fails right after a successfully
consumed prefix: the result is unsuccessful, carries the failing line's
error site, and retains the keyframes of the prefix. -/
theorem parse_fail_after_prefix {nj : Nat} {pre : List String} {l : String}
    {post : List String} {st : PState} {ek : ParseError}
    (hpre : parseState nj pre = some st)
    (herr : processLine nj st l.data = .error ek) :
    (parse nj (pre ++ l :: post)).successful = false ∧
      parseError nj (pre ++ l :: post) = some ek ∧
      (parse nj (pre ++ l :: post)).keyFrames = st.keyFrames := by
  have hpl : parseLines nj initState ((pre ++ l :: post).map String.data) =
      .error (ek, st) := by
    simp only [List.map_append, List.map_cons, parseLines_append, parseState_eq hpre,
      parseLines_cons, herr]
  refine ⟨?_, ?_, ?_⟩
  · simp only [parse, hpl]
  · simp only [parseError, hpl]
  · simp only [parse, hpl]

/-- Success of the whole parse on a prefix extended by one more successful
line. -/
theorem parse_ok_after_prefix {nj : Nat} {pre : List String} {l : String}
    {st st' : PState}
    (hpre : parseState nj pre = some st)
    (hok : processLine nj st l.data = .ok st') :
    parse nj (pre ++ [l]) = ⟨true, st'.keyFrames⟩ ∧
      parseState nj (pre ++ [l]) = some st' := by
  have hpl : parseLines nj initState ((pre ++ [l]).map String.data) = .ok st' := by
    simp only [List.map_append, List.map_cons, List.map_nil, parseLines_append,
      parseState_eq hpre, parseLines_cons, hok, parseLines]
  exact ⟨by simp only [parse, hpl], by simp only [parseState, hpl]⟩

/-- All-ignored line lists leave any state unchanged. -/
theorem parseLines_ignored {nj : Nat} :
    ∀ (lines : List (List Char)) (st : PState),
      (∀ l ∈ lines, lineFront l ≠ '$' ∧ lineFront l ≠ '!') →
      parseLines nj st lines = .ok st := by
  intro lines
  induction lines with
  | nil => intro st _; rfl
  | cons l rest ih =>
      intro st h
      rw [parseLines_cons, processLine_ignored nj st (h l (List.mem_cons_self _ _)).1
        (h l (List.mem_cons_self _ _)).2]
      exact ih st (fun x hx => h x (List.mem_cons_of_mem _ hx))

/-- C1 counterexample: on an input whose second position line is
inconsistent with the first, `parse` fails but the returned result still
carries the keyframe emitted for the first line — a `Failure` carrying
keyframes, contradicting the claim that a failure carries none. -/
theorem failure_retains_partial_keyframes_cex :
    (parse NUMJOINTS [ "! 90 - - - - - - - - - - - - - - - - - - - - - - - - 300",
        "! - 90 - - - - - - - - - - - - - - - - - - - - - - - 200" ]).successful = false ∧
    (parse NUMJOINTS [ "! 90 - - - - - - - - - - - - - - - - - - - - - - - - 300",
        "! - 90 - - - - - - - - - - - - - - - - - - - - - - - 200" ]).keyFrames.length = 1 :=
  of_decide_eq_true (by with_unfolding_all rfl)

/-- C1 (amended): a failing `parse` marks the result unsuccessful and stops
at the first failing line; the `keyFrames` field of the failure result is
exactly the keyframe list of the successfully parsed prefix, so keyframes
emitted before the failing line are retained (not discarded), and nothing
from the failing line onwards is emitted. -/
theorem parse_failure_keeps_prefix_keyframes (nj : Nat) (input : List String)
    (h : (parse nj input).successful = false) :
    ∃ pre post, input = pre ++ post ∧ (parse nj pre).successful = true ∧
      (parse nj input).keyFrames = (parse nj pre).keyFrames := by
  cases hp : parseLines nj initState (input.map String.data) with
  | ok st => simp only [parse, hp] at h; exact Bool.noConfusion h
  | error e =>
      obtain ⟨ekind, est⟩ := e
      obtain ⟨pre, l, post, hsplit, hok, herr⟩ := parseLines_fail hp
      have hmap : (input.take pre.length).map String.data = pre := by
        rw [List.map_take, hsplit, List.take_left]
      refine ⟨input.take pre.length, input.drop pre.length,
        (List.take_append_drop _ _).symm, ?_, ?_⟩
      · simp only [parse, hmap, hok]
      · simp only [parse, hp, hmap, hok]

/-- C1 witness: the amended statement applied to the two-line
counterexample input. -/
theorem parse_failure_keeps_prefix_keyframes_app :
    ∃ pre post,
      ([ "! 90 - - - - - - - - - - - - - - - - - - - - - - - - 300",
         "! - 90 - - - - - - - - - - - - - - - - - - - - - - - 200" ] : List String) =
        pre ++ post ∧
      (parse NUMJOINTS pre).successful = true ∧
      (parse NUMJOINTS [ "! 90 - - - - - - - - - - - - - - - - - - - - - - - - 300",
        "! - 90 - - - - - - - - - - - - - - - - - - - - - - - 200" ]).keyFrames =
        (parse NUMJOINTS pre).keyFrames :=
  parse_failure_keeps_prefix_keyframes NUMJOINTS _ (by with_unfolding_all rfl)

/-- C2 counterexample: the value token `1.5abc` has trailing non-numeric
characters, yet `std::stof` accepts its numeric prefix, so the parse
succeeds (storing 1.5 degrees, i.e. the rational coefficient 1/120 of π)
instead of failing with `InvalidNumericField` as the claim states. -/
theorem trailing_junk_token_accepted_cex :
    (parse NUMJOINTS [ "! 1.5abc - - - - - - - - - - - - - - - - - - - - - - - - 100" ]
      ).successful = true ∧
    (parse NUMJOINTS [ "! 1.5abc - - - - - - - - - - - - - - - - - - - - - - - - 100" ]
      ).keyFrames.map (fun kf => kf.jointPositions.positions) = [ [ 1/120 ] ] :=
  of_decide_eq_true (by with_unfolding_all rfl)

/-- C2 (amended): a value token at positions 1..NUMJOINTS of a correctly
sized stiffness or position directive that is neither the unset sentinel
nor parsable by `std::stof` (no valid numeric prefix, e.g. `abc`) aborts
the parse with the invalid-numeric-field error site of its branch; tokens
with a valid numeric prefix and trailing junk are accepted with the junk
ignored, and out-of-range literals raise an exception the parser does not
catch (outside the model). -/
theorem invalid_numeric_token_fails (nj : Nat) (pre : List String) (l : String)
    (post : List String) (st : PState)
    (hpre : parseState nj pre = some st)
    (hclass : (lineFront l.data = '$' ∧ (split l.data).length = nj + 1) ∨
      (lineFront l.data = '!' ∧ (split l.data).length = nj + 2))
    (hbad : ∃ i ∈ List.range' 1 nj, (split l.data).getD i [] ≠ dash ∧
      stof ((split l.data).getD i []) = none) :
    (parse nj (pre ++ l :: post)).successful = false ∧
      (parseError nj (pre ++ l :: post) = some ParseError.invalidStiffnessValue ∨
       parseError nj (pre ++ l :: post) = some ParseError.invalidJointValue) := by
  obtain ⟨i, hi, hd, hs⟩ := hbad
  rcases hclass with ⟨hc, hlen⟩ | ⟨hc, hlen⟩
  · have herr : processLine nj st l.data = .error .invalidStiffnessValue := by
      rw [processLine_stiff nj st hc, if_neg (not_ne_iff.mpr hlen),
        stiffLoop_bad (split l.data) hi hd hs st.jointStiffnesses]
    obtain ⟨h1, h2, _⟩ := parse_fail_after_prefix hpre herr
    exact ⟨h1, Or.inl h2⟩
  · have herr : processLine nj st l.data = .error .invalidJointValue := by
      rw [processLine_pos nj st hc, if_neg (not_ne_iff.mpr hlen),
        posLoop_bad st.customStiffnesses (split l.data) hi hd hs ⟨[], []⟩
          st.jointStiffnesses]
    obtain ⟨h1, h2, _⟩ := parse_fail_after_prefix hpre herr
    exact ⟨h1, Or.inr h2⟩

/-- C2 witness: the amended statement applied to a position line carrying
the prefix-free token `abc`. -/
theorem invalid_numeric_token_fails_app :
    (parse NUMJOINTS [ "! abc - - - - - - - - - - - - - - - - - - - - - - - - 100" ]
      ).successful = false ∧
    (parseError NUMJOINTS [ "! abc - - - - - - - - - - - - - - - - - - - - - - - - 100" ] =
        some ParseError.invalidStiffnessValue ∨
     parseError NUMJOINTS [ "! abc - - - - - - - - - - - - - - - - - - - - - - - - 100" ] =
        some ParseError.invalidJointValue) :=
  invalid_numeric_token_fails NUMJOINTS [] _ [] initState rfl
    (of_decide_eq_true (by with_unfolding_all rfl))
    (of_decide_eq_true (by with_unfolding_all rfl))

/-- C3: in the de-facto model of `line.front()` (null terminator on a
zero-length line), any input of lines that start with neither directive
marker — comments, blanks, and empty lines included — parses successfully
with an empty keyframe sequence. -/
theorem ignored_lines_parse_success (nj : Nat) (input : List String)
    (h : ∀ l ∈ input, lineFront l.data ≠ '$' ∧ lineFront l.data ≠ '!') :
    parse nj input = ⟨true, []⟩ := by
  have hi : ∀ l ∈ input.map String.data, lineFront l ≠ '$' ∧ lineFront l ≠ '!' := by
    intro l hl
    obtain ⟨s, hs, rfl⟩ := List.mem_map.mp hl
    exact h s hs
  simp only [parse, parseLines_ignored (input.map String.data) initState hi]
  rfl

/-- C3 witness: a comment line, a zero-length line and a whitespace-only
line are all ignored and the parse succeeds with no keyframes. -/
theorem ignored_lines_parse_success_app :
    parse NUMJOINTS [ "# a comment", "", "   " ] = ⟨true, []⟩ :=
  ignored_lines_parse_success NUMJOINTS _ (of_decide_eq_true (by with_unfolding_all rfl))

/-- C4 counterexample: `std::stoi` accepts a negative trailing duration, and
adding it to the `unsigned` clock makes the emitted absolute times 300 then
200 — not monotonically non-decreasing, contradicting the claim. -/
theorem absolute_time_not_monotone_cex :
    (parse NUMJOINTS [ "! 90 - - - - - - - - - - - - - - - - - - - - - - - - 300",
        "! 90 - - - - - - - - - - - - - - - - - - - - - - - - -100" ]).successful = true ∧
    (parse NUMJOINTS [ "! 90 - - - - - - - - - - - - - - - - - - - - - - - - 300",
        "! 90 - - - - - - - - - - - - - - - - - - - - - - - - -100" ]
      ).keyFrames.map KeyFrame.time = [300, 200] ∧
    ¬ List.Chain' (· ≤ ·)
      ((parse NUMJOINTS [ "! 90 - - - - - - - - - - - - - - - - - - - - - - - - 300",
          "! 90 - - - - - - - - - - - - - - - - - - - - - - - - -100" ]
        ).keyFrames.map KeyFrame.time) := by
  have hm : (parse NUMJOINTS [ "! 90 - - - - - - - - - - - - - - - - - - - - - - - - 300",
      "! 90 - - - - - - - - - - - - - - - - - - - - - - - - -100" ]
    ).keyFrames.map KeyFrame.time = [300, 200] := by with_unfolding_all rfl
  refine ⟨by with_unfolding_all rfl, hm, ?_⟩
  rw [hm]
  simp [List.chain'_cons]

/-- C4 (amended): over every successful parse whose position-line durations
are all non-negative with total below `2 ^ 32` (no unsigned wrap-around),
the emitted `absolute_time` values are monotonically non-decreasing in
emission order. -/
theorem absolute_time_monotone_nonneg (nj : Nat) (input : List String)
    (hsucc : (parse nj input).successful = true)
    (hnn : ∀ d ∈ posDurations (input.map String.data), 0 ≤ d)
    (hbound : (posDurations (input.map String.data)).sum < 2 ^ 32) :
    List.Chain' (· ≤ ·) ((parse nj input).keyFrames.map KeyFrame.time) := by
  cases hp : parseLines nj initState (input.map String.data) with
  | error e => simp only [parse, hp] at hsucc; exact Bool.noConfusion hsucc
  | ok st =>
      have htimes := (parseLines_times hp).1
      rw [show initState.keyFrames = [] from rfl,
        show initState.keyFrameTime = 0 from rfl] at htimes
      simp only [List.map_nil, List.nil_append] at htimes
      have hres : (parse nj input).keyFrames = st.keyFrames := by simp only [parse, hp]
      rw [hres, htimes]
      exact (cumTimes_chain _ 0 hnn (by simpa using hbound)).tail

/-- C4 witness: the amended statement applied to durations 300 and 200. -/
theorem absolute_time_monotone_nonneg_app :
    List.Chain' (· ≤ ·)
      ((parse NUMJOINTS [ "! 90 - - - - - - - - - - - - - - - - - - - - - - - - 300",
          "! 90 - - - - - - - - - - - - - - - - - - - - - - - - 200" ]
        ).keyFrames.map KeyFrame.time) :=
  absolute_time_monotone_nonneg NUMJOINTS _ (by with_unfolding_all rfl)
    (of_decide_eq_true (by with_unfolding_all rfl))
    (of_decide_eq_true (by with_unfolding_all rfl))

end parser

namespace parser

/-- Reduction of `posFinish` when the consistency check passes and the
duration token parses. -/
theorem posFinish_eq {st : PState} {toks : List (List Char)} {jp : JointPositions}
    {js : JointStiffnesses} {d : ℤ}
    (hd : stoi (toks.getLastD []) = some d)
    (hcons : ¬(st.firstPosLine = false ∧ jp.indexes ≠ st.prevJointPositions.indexes)) :
    posFinish st toks jp js =
      (if st.customStiffnesses = true ∧ jp.indexes.length ≠ js.indexes.length then
        .error .stiffnessSizeMismatch
      else if st.customStiffnesses = true ∧ jp.indexes ≠ js.indexes then
        .error .stiffnessIndexMismatch
      else
        .ok ⟨((((st.keyFrameTime : ℤ) + d) % (2 ^ 32))).toNat, ⟨[], []⟩, false, false, jp,
          st.keyFrames ++ [⟨((((st.keyFrameTime : ℤ) + d) % (2 ^ 32))).toNat, jp, js⟩]⟩) := by
  unfold posFinish
  rw [if_neg hcons, hd]

/-- Reduction of `posFinish` when the consistency check fails. -/
theorem posFinish_inconsistent {st : PState} {toks : List (List Char)}
    {jp : JointPositions} {js : JointStiffnesses}
    (h : st.firstPosLine = false ∧ jp.indexes ≠ st.prevJointPositions.indexes) :
    posFinish st toks jp js = .error .inconsistentJointSet := by
  unfold posFinish
  rw [if_pos h]

/-- Conversion of a `tokensOk` check into the per-position validity fact
used by the loop lemmas. -/
theorem tokensOk_valid {nj : Nat} {line : List Char} (htok : tokensOk nj line = true) :
    ∀ i ∈ List.range' 1 nj, (split line).getD i [] = dash ∨
      (stof ((split line).getD i [])).isSome = true := by
  intro i hi
  have := List.all_eq_true.mp htok i hi
  simpa using this

/-- C5: on every input prefix consumed without failure, (a) every keyframe
emitted so far carries exactly the joint-index sequence of the first
position directive of that prefix, and (b) extending the prefix with a
well-formed position line whose index sequence differs from that of the
emitted keyframes makes the whole parse fail with the
`InconsistentJointSet` error, whatever lines follow. -/
theorem keyframe_joint_indexes_uniform (nj : Nat) (pre : List String) (st : PState)
    (hpre : parseState nj pre = some st) :
    (∀ lf, (pre.map String.data).find? (fun l => lineFront l = '!') = some lf →
      ∀ kf ∈ st.keyFrames, kf.jointPositions.indexes = lineIndexes nj lf) ∧
    (∀ (l : String) (post : List String), lineFront l.data = '!' →
      (split l.data).length = nj + 2 → tokensOk nj l.data = true →
      st.keyFrames ≠ [] →
      lineIndexes nj l.data ∉ st.keyFrames.map (fun kf => kf.jointPositions.indexes) →
      (parse nj (pre ++ l :: post)).successful = false ∧
        parseError nj (pre ++ l :: post) = some ParseError.inconsistentJointSet) := by
  have hok := parseState_eq hpre
  have hInv := parseState_holds_inv hpre
  constructor
  · exact fun lf hlf => parseLines_first_ref initState_inv rfl rfl hok lf hlf
  · intro l post h2 hlen htok hne hnotin
    have hfp : st.firstPosLine = false := by
      cases hb : st.firstPosLine with
      | false => rfl
      | true => exact absurd (hInv.1 hb) hne
    obtain ⟨kf0, hkf0⟩ := List.exists_mem_of_ne_nil st.keyFrames hne
    have hprev : st.prevJointPositions.indexes ∈
        st.keyFrames.map (fun kf => kf.jointPositions.indexes) := by
      rw [← hInv.2.1 kf0 hkf0]
      exact List.mem_map_of_mem _ hkf0
    have hneq : lineIndexes nj l.data ≠ st.prevJointPositions.indexes := by
      intro he
      rw [he] at hnotin
      exact hnotin hprev
    obtain ⟨p, hp⟩ := posLoop_ok_of_valid st.customStiffnesses (split l.data)
      (List.range' 1 nj) (tokensOk_valid htok) ⟨[], []⟩ st.jointStiffnesses
    obtain ⟨jp, js⟩ := p
    have hjpidx : jp.indexes = lineIndexes nj l.data := by
      have hchar := posLoop_ok st.customStiffnesses (split l.data) (List.range' 1 nj)
        [] [] st.jointStiffnesses.indexes st.jointStiffnesses.stiffnesses jp js hp
      rw [hchar.1]
      rfl
    have herr : processLine nj st l.data = .error .inconsistentJointSet := by
      rw [processLine_pos nj st h2, if_neg (not_ne_iff.mpr hlen), hp]
      exact posFinish_inconsistent ⟨hfp, by rw [hjpidx]; exact hneq⟩
    obtain ⟨hsf, hperr, _⟩ := parse_fail_after_prefix hpre herr
    exact ⟨hsf, hperr⟩

/-- C5 witness: after one position line driving joint 0, the emitted
keyframe carries that line's index sequence, and appending a position line
driving joint 1 instead fails with `InconsistentJointSet`. -/
theorem keyframe_joint_indexes_uniform_app :
    (∀ kf ∈ ([⟨300, ⟨[0], [1/2]⟩, ⟨[0], [1]⟩⟩] : List KeyFrame),
      kf.jointPositions.indexes =
        lineIndexes NUMJOINTS "! 90 - - - - - - - - - - - - - - - - - - - - - - - - 300".data) ∧
    (parse NUMJOINTS [ "! 90 - - - - - - - - - - - - - - - - - - - - - - - - 300",
        "! - 90 - - - - - - - - - - - - - - - - - - - - - - - 200" ]).successful = false ∧
    parseError NUMJOINTS [ "! 90 - - - - - - - - - - - - - - - - - - - - - - - - 300",
        "! - 90 - - - - - - - - - - - - - - - - - - - - - - - 200" ] =
      some ParseError.inconsistentJointSet := by
  have h := keyframe_joint_indexes_uniform NUMJOINTS
    [ "! 90 - - - - - - - - - - - - - - - - - - - - - - - - 300" ]
    ⟨300, ⟨[], []⟩, false, false, ⟨[0], [1/2]⟩, [⟨300, ⟨[0], [1/2]⟩, ⟨[0], [1]⟩⟩]⟩
    (by with_unfolding_all rfl)
  have h2 := h.2 "! - 90 - - - - - - - - - - - - - - - - - - - - - - - 200" []
    (by with_unfolding_all rfl) (by with_unfolding_all rfl) (by with_unfolding_all rfl)
    (of_decide_eq_true (by with_unfolding_all rfl))
    (of_decide_eq_true (by with_unfolding_all rfl))
  exact ⟨fun kf hkf => h.1
    "! 90 - - - - - - - - - - - - - - - - - - - - - - - - 300".data
    (by with_unfolding_all rfl) kf hkf, h2.1, h2.2⟩

end parser

namespace parser

/-- C6 counterexample: with durations 100 and -200 the second keyframe's
stored absolute time is the wrapped unsigned value 4294967196, not the
plain sum -100 of the durations of position directives 1 and 2. -/
theorem absolute_time_not_plain_sum_cex :
    (parse NUMJOINTS [ "! 90 - - - - - - - - - - - - - - - - - - - - - - - - 100",
        "! 90 - - - - - - - - - - - - - - - - - - - - - - - - -200" ]).successful = true ∧
    posDurations ([ "! 90 - - - - - - - - - - - - - - - - - - - - - - - - 100",
        "! 90 - - - - - - - - - - - - - - - - - - - - - - - - -200" ].map String.data) =
      [100, -200] ∧
    (parse NUMJOINTS [ "! 90 - - - - - - - - - - - - - - - - - - - - - - - - 100",
        "! 90 - - - - - - - - - - - - - - - - - - - - - - - - -200" ]
      ).keyFrames.map KeyFrame.time = [100, 4294967196] ∧
    ((((parse NUMJOINTS [ "! 90 - - - - - - - - - - - - - - - - - - - - - - - - 100",
        "! 90 - - - - - - - - - - - - - - - - - - - - - - - - -200" ]
      ).keyFrames.map KeyFrame.time).getD 1 0 : Nat) : ℤ) ≠ 100 + (-200) :=
  of_decide_eq_true (by with_unfolding_all rfl)

/-- C6 (amended): on every successful parse, the emitted absolute times are
the cumulative modular clock over the position-line durations: the k-th
keyframe's absolute_time equals the sum of the durations of position
directives 1 through k+1 reduced modulo 2^32 into [0, 2^32); when all those
sums are representable this is the plain cumulative sum (e.g. durations 300
and 200 give times 300 and 500). -/
theorem absolute_time_cumulative_mod (nj : Nat) (input : List String)
    (hsucc : (parse nj input).successful = true) :
    (parse nj input).keyFrames.map KeyFrame.time =
      cumTimes 0 (posDurations (input.map String.data)) ∧
    ∀ k < (parse nj input).keyFrames.length,
      ((((parse nj input).keyFrames.map KeyFrame.time).getD k 0 : Nat) : ℤ) =
        ((posDurations (input.map String.data)).take (k + 1)).sum % (2 ^ 32) := by
  cases hp : parseLines nj initState (input.map String.data) with
  | error e => simp only [parse, hp] at hsucc; exact Bool.noConfusion hsucc
  | ok st =>
      have htimes := (parseLines_times hp).1
      rw [show initState.keyFrames = [] from rfl,
        show initState.keyFrameTime = 0 from rfl] at htimes
      simp only [List.map_nil, List.nil_append] at htimes
      have hres : (parse nj input).keyFrames = st.keyFrames := by simp only [parse, hp]
      rw [hres, htimes]
      refine ⟨rfl, fun k hk => ?_⟩
      have hklen : k < (posDurations (input.map String.data)).length := by
        have h1 : st.keyFrames.length = (cumTimes 0 (posDurations (input.map String.data))).length := by
          rw [← htimes, List.length_map]
        rw [h1, cumTimes_length] at hk
        exact hk
      have := cumTimes_getD (posDurations (input.map String.data)) 0 k hklen
      simpa using this

/-- C6 witness: the amended statement applied to durations 300 and 200,
whose cumulative times are 300 and 500. -/
theorem absolute_time_cumulative_mod_app :
    (parse NUMJOINTS [ "! -5 - - - - - - - - - - - - - - - - - - - - - - - - 300",
        "! -5 - - - - - - - - - - - - - - - - - - - - - - - - 200" ]
      ).keyFrames.map KeyFrame.time =
      cumTimes 0 (posDurations ([ "! -5 - - - - - - - - - - - - - - - - - - - - - - - - 300",
        "! -5 - - - - - - - - - - - - - - - - - - - - - - - - 200" ].map String.data)) ∧
    (parse NUMJOINTS [ "! -5 - - - - - - - - - - - - - - - - - - - - - - - - 300",
        "! -5 - - - - - - - - - - - - - - - - - - - - - - - - 200" ]
      ).keyFrames.map KeyFrame.time = [300, 500] :=
  ⟨(absolute_time_cumulative_mod NUMJOINTS _ (by with_unfolding_all rfl)).1,
   by with_unfolding_all rfl⟩

end parser

namespace parser

/-- C7: when a custom stiffness is pending and the next position line is
otherwise well formed (size, tokens, consistency, duration all pass), the
parse fails at a `StiffnessPositionMismatch` site unless the pending
stiffness index sequence equals the position line's index sequence
element-wise; and when they are equal, the keyframe emitted for that line
carries the pending stiffness message itself — values from the stiffness
directives, not the implicit default. -/
theorem custom_stiffness_match_check (nj : Nat) (pre : List String) (l : String)
    (st : PState)
    (hpre : parseState nj pre = some st)
    (hcust : st.customStiffnesses = true)
    (h2 : lineFront l.data = '!')
    (hlen : (split l.data).length = nj + 2)
    (htok : tokensOk nj l.data = true)
    (hcons : st.firstPosLine = true ∨ lineIndexes nj l.data = st.prevJointPositions.indexes)
    (hdur : ∃ d, stoi ((split l.data).getLastD []) = some d) :
    (st.jointStiffnesses.indexes ≠ lineIndexes nj l.data →
      ∀ post, (parse nj (pre ++ l :: post)).successful = false ∧
        (parseError nj (pre ++ l :: post) = some ParseError.stiffnessSizeMismatch ∨
         parseError nj (pre ++ l :: post) = some ParseError.stiffnessIndexMismatch)) ∧
    (st.jointStiffnesses.indexes = lineIndexes nj l.data →
      (parse nj (pre ++ [l])).successful = true ∧
      ((parse nj (pre ++ [l])).keyFrames.getLastD default).jointStiffnesses =
        st.jointStiffnesses) := by
  obtain ⟨d, hd⟩ := hdur
  obtain ⟨p, hp⟩ := posLoop_ok_of_valid st.customStiffnesses (split l.data)
    (List.range' 1 nj) (tokensOk_valid htok) ⟨[], []⟩ st.jointStiffnesses
  obtain ⟨jp, js⟩ := p
  have hchar := posLoop_ok st.customStiffnesses (split l.data) (List.range' 1 nj)
    [] [] st.jointStiffnesses.indexes st.jointStiffnesses.stiffnesses jp js hp
  have hjs : js = st.jointStiffnesses := hchar.2.2.1 hcust
  have hjp : jp.indexes = lineIndexes nj l.data := by
    rw [hchar.1]
    rfl
  have hconsF : ¬(st.firstPosLine = false ∧ jp.indexes ≠ st.prevJointPositions.indexes) := by
    rcases hcons with hfp | heq
    · intro hc
      rw [hfp] at hc
      exact Bool.noConfusion hc.1
    · intro hc
      exact hc.2 (by rw [hjp, heq])
  constructor
  · intro hne post
    by_cases hsz : jp.indexes.length = js.indexes.length
    · have herr : processLine nj st l.data = .error .stiffnessIndexMismatch := by
        rw [processLine_pos nj st h2, if_neg (not_ne_iff.mpr hlen), hp]
        show posFinish st (split l.data) jp js = _
        rw [posFinish_eq hd hconsF, if_neg (fun hc => hc.2 hsz),
          if_pos ⟨hcust, by rw [hjp, hjs]; exact fun he => hne he.symm⟩]
      obtain ⟨hsf, hperr, _⟩ := parse_fail_after_prefix hpre herr
      exact ⟨hsf, Or.inr hperr⟩
    · have herr : processLine nj st l.data = .error .stiffnessSizeMismatch := by
        rw [processLine_pos nj st h2, if_neg (not_ne_iff.mpr hlen), hp]
        show posFinish st (split l.data) jp js = _
        rw [posFinish_eq hd hconsF, if_pos ⟨hcust, hsz⟩]
      obtain ⟨hsf, hperr, _⟩ := parse_fail_after_prefix hpre herr
      exact ⟨hsf, Or.inl hperr⟩
  · intro heq
    have hjpjs : jp.indexes = js.indexes := by
      rw [hjp, hjs, heq]
    have hok : processLine nj st l.data = .ok
        ⟨((((st.keyFrameTime : ℤ) + d) % (2 ^ 32))).toNat, ⟨[], []⟩, false, false, jp,
          st.keyFrames ++ [⟨((((st.keyFrameTime : ℤ) + d) % (2 ^ 32))).toNat, jp, js⟩]⟩ := by
      rw [processLine_pos nj st h2, if_neg (not_ne_iff.mpr hlen), hp]
      show posFinish st (split l.data) jp js = _
      rw [posFinish_eq hd hconsF, if_neg (fun hc => hc.2 (by rw [hjpjs])),
        if_neg (fun hc => hc.2 hjpjs)]
    obtain ⟨hres, _⟩ := parse_ok_after_prefix hpre hok
    constructor
    · rw [hres]
    · rw [hres]
      show ((st.keyFrames ++ [_]).getLastD default).jointStiffnesses = _
      rw [getLastD_append_singleton]
      exact hjs

/-- C7 witness: a stiffness line driving joint 0 with value 0.25 followed
by a position line driving joint 0 succeeds and the emitted keyframe takes
the stiffness 0.25 from the directive; followed instead by a position line
driving joints 0 and 1, the parse fails with the size-mismatch site. -/
theorem custom_stiffness_match_check_app :
    ((parse NUMJOINTS [ "$ 0.25 - - - - - - - - - - - - - - - - - - - - - - - -",
        "! 90 - - - - - - - - - - - - - - - - - - - - - - - - 300" ]).successful = true ∧
      ((parse NUMJOINTS [ "$ 0.25 - - - - - - - - - - - - - - - - - - - - - - - -",
          "! 90 - - - - - - - - - - - - - - - - - - - - - - - - 300" ]
        ).keyFrames.getLastD default).jointStiffnesses = ⟨[0], [1/4]⟩) ∧
    ((parse NUMJOINTS [ "$ 0.25 - - - - - - - - - - - - - - - - - - - - - - - -",
        "! 90 90 - - - - - - - - - - - - - - - - - - - - - - - 300" ]).successful = false ∧
      parseError NUMJOINTS [ "$ 0.25 - - - - - - - - - - - - - - - - - - - - - - - -",
          "! 90 90 - - - - - - - - - - - - - - - - - - - - - - - 300" ] =
        some ParseError.stiffnessSizeMismatch) := by
  have hmatch := (custom_stiffness_match_check NUMJOINTS
    [ "$ 0.25 - - - - - - - - - - - - - - - - - - - - - - - -" ]
    "! 90 - - - - - - - - - - - - - - - - - - - - - - - - 300"
    ⟨0, ⟨[0], [1/4]⟩, true, true, ⟨[], []⟩, []⟩ (by with_unfolding_all rfl) rfl
    (by with_unfolding_all rfl) (by with_unfolding_all rfl) (by with_unfolding_all rfl)
    (Or.inl rfl) ⟨300, by with_unfolding_all rfl⟩).2 (by with_unfolding_all rfl)
  have hmis := ((custom_stiffness_match_check NUMJOINTS
    [ "$ 0.25 - - - - - - - - - - - - - - - - - - - - - - - -" ]
    "! 90 90 - - - - - - - - - - - - - - - - - - - - - - - 300"
    ⟨0, ⟨[0], [1/4]⟩, true, true, ⟨[], []⟩, []⟩ (by with_unfolding_all rfl) rfl
    (by with_unfolding_all rfl) (by with_unfolding_all rfl) (by with_unfolding_all rfl)
    (Or.inl rfl) ⟨300, by with_unfolding_all rfl⟩).1
    (of_decide_eq_true (by with_unfolding_all rfl)) [])
  refine ⟨hmatch, hmis.1, ?_⟩
  rcases hmis.2 with h | h
  · exact h
  · exact absurd h (of_decide_eq_true (by with_unfolding_all rfl))

end parser

namespace parser

/-- C8: a position line processed with no custom stiffness pending, when it
succeeds, emits a keyframe whose stiffness index sequence is identical to
(and ordered as) its position index sequence — the indexes the line
explicitly sets — with every stiffness value the implicit full stiffness
1.0. -/
theorem implicit_full_stiffness (nj : Nat) (pre : List String) (l : String)
    (st : PState)
    (hpre : parseState nj pre = some st)
    (hnc : st.customStiffnesses = false)
    (h2 : lineFront l.data = '!')
    (hsucc : (parse nj (pre ++ [l])).successful = true) :
    ((parse nj (pre ++ [l])).keyFrames.getLastD default).jointPositions.indexes =
      lineIndexes nj l.data ∧
    ((parse nj (pre ++ [l])).keyFrames.getLastD default).jointStiffnesses.indexes =
      lineIndexes nj l.data ∧
    ((parse nj (pre ++ [l])).keyFrames.getLastD default).jointStiffnesses.stiffnesses =
      List.replicate (lineIndexes nj l.data).length (1 : ℚ) := by
  cases hp : parseLines nj initState ((pre ++ [l]).map String.data) with
  | error e => simp only [parse, hp] at hsucc; exact Bool.noConfusion hsucc
  | ok stf =>
      have hp2 : parseLines nj st [l.data] = .ok stf := by
        have h3 := hp
        rw [List.map_append, parseLines_append, parseState_eq hpre] at h3
        exact h3
      rw [parseLines_cons] at hp2
      cases hpl : processLine nj st l.data with
      | error e => rw [hpl] at hp2; exact Except.noConfusion hp2
      | ok st' =>
          rw [hpl] at hp2
          have hstf : Except.ok (ε := ParseError × PState) st' = Except.ok stf := hp2
          cases hstf
          obtain ⟨jp, js, d, hlen, hplo, hcons, hdur, hcust, hst'⟩ :=
            processLine_pos_ok h2 hpl
          have hjs0 : st.jointStiffnesses = ⟨[], []⟩ :=
            (parseState_holds_inv hpre).2.2 hnc
          rw [hnc, hjs0] at hplo
          have hchar := posLoop_ok false (split l.data) (List.range' 1 nj)
            [] [] [] [] jp js hplo
          have hjp : jp.indexes = lineIndexes nj l.data := by
            rw [hchar.1]
            rfl
          have hjsidx : js.indexes = lineIndexes nj l.data := by
            rw [(hchar.2.2.2 rfl).1]
            rfl
          have hjsval : js.stiffnesses =
              List.replicate (lineIndexes nj l.data).length (1 : ℚ) := by
            rw [(hchar.2.2.2 rfl).2]
            rfl
          have hres : (parse nj (pre ++ [l])).keyFrames = stf.keyFrames := by
            simp only [parse, hp]
          have hproj : stf.keyFrames = st.keyFrames ++
              [⟨((((st.keyFrameTime : ℤ) + d) % (2 ^ 32))).toNat, jp, js⟩] := by
            rw [hst']
          rw [hres, hproj, getLastD_append_singleton]
          exact ⟨hjp, hjsidx, hjsval⟩

/-- C8 witness: one position line driving joints 0 and 1 with no stiffness
directive before it yields implicit stiffness entries 1.0 on exactly those
indexes, in order. -/
theorem implicit_full_stiffness_app :
    ((parse NUMJOINTS [ "! 45 45 - - - - - - - - - - - - - - - - - - - - - - - 700" ]
      ).keyFrames.getLastD default).jointPositions.indexes =
      lineIndexes NUMJOINTS
        "! 45 45 - - - - - - - - - - - - - - - - - - - - - - - 700".data ∧
    ((parse NUMJOINTS [ "! 45 45 - - - - - - - - - - - - - - - - - - - - - - - 700" ]
      ).keyFrames.getLastD default).jointStiffnesses.indexes =
      lineIndexes NUMJOINTS
        "! 45 45 - - - - - - - - - - - - - - - - - - - - - - - 700".data ∧
    ((parse NUMJOINTS [ "! 45 45 - - - - - - - - - - - - - - - - - - - - - - - 700" ]
      ).keyFrames.getLastD default).jointStiffnesses.stiffnesses =
      List.replicate (lineIndexes NUMJOINTS
        "! 45 45 - - - - - - - - - - - - - - - - - - - - - - - 700".data).length (1 : ℚ) :=
  implicit_full_stiffness NUMJOINTS []
    "! 45 45 - - - - - - - - - - - - - - - - - - - - - - - 700" initState rfl rfl
    (by with_unfolding_all rfl) (by with_unfolding_all rfl)

/-- C9: a successfully processed position line stores, for each value token
that is not the unset sentinel, the token's degree value converted to
radians as `radians = degrees * π / 180` (the keyframe stores the exact
rational coefficient of π), with the indexes the line sets. -/
theorem degrees_to_radians_conversion (nj : Nat) (st : PState) (line : List Char)
    (st' : PState) (h2 : lineFront line = '!')
    (hok : processLine nj st line = .ok st') :
    ((st'.keyFrames.getLastD default).jointPositions.positions).map
        (fun q : ℚ => (q : ℝ) * Real.pi) =
      (lineDegrees nj line).map (fun d : ℚ => (d : ℝ) * Real.pi / 180) ∧
    (st'.keyFrames.getLastD default).jointPositions.indexes = lineIndexes nj line := by
  obtain ⟨jp, js, d, hlen, hplo, hcons, hdur, hcust, hst'⟩ := processLine_pos_ok h2 hok
  have hchar := posLoop_ok st.customStiffnesses (split line) (List.range' 1 nj) [] []
    st.jointStiffnesses.indexes st.jointStiffnesses.stiffnesses jp js hplo
  have hpos : jp.positions = (lineDegrees nj line).map (fun d => d / 180) := by
    rw [hchar.2.1]
    rfl
  have hjp : jp.indexes = lineIndexes nj line := by
    rw [hchar.1]
    rfl
  have hproj : st'.keyFrames = st.keyFrames ++
      [⟨((((st.keyFrameTime : ℤ) + d) % (2 ^ 32))).toNat, jp, js⟩] := by
    rw [hst']
  rw [hproj, getLastD_append_singleton]
  refine ⟨?_, hjp⟩
  show jp.positions.map (fun q : ℚ => (q : ℝ) * Real.pi) =
    (lineDegrees nj line).map (fun d : ℚ => (d : ℝ) * Real.pi / 180)
  rw [hpos, List.map_map]
  congr 1
  funext x
  show (((x / 180 : ℚ) : ℝ) * Real.pi) = (x : ℝ) * Real.pi / 180
  push_cast
  ring

/-- C9 witness: the claim's example — a single position line setting joints
0 and 1 to 90 and -90 degrees with duration 500 yields one keyframe with
absolute time 500, radian values π/2 and -π/2, and implicit full stiffness
on both joints. -/
theorem degrees_to_radians_conversion_app :
    ((parse NUMJOINTS [ "! 90 -90 - - - - - - - - - - - - - - - - - - - - - - - 500" ]
      ).keyFrames.getLastD default).jointPositions.positions.map
        (fun q : ℚ => (q : ℝ) * Real.pi) = [ Real.pi / 2, -(Real.pi / 2) ] ∧
    (parse NUMJOINTS [ "! 90 -90 - - - - - - - - - - - - - - - - - - - - - - - 500" ]
      ).keyFrames.map KeyFrame.time = [500] ∧
    ((parse NUMJOINTS [ "! 90 -90 - - - - - - - - - - - - - - - - - - - - - - - 500" ]
      ).keyFrames.getLastD default).jointStiffnesses = ⟨[0, 1], [1, 1]⟩ := by
  have h := degrees_to_radians_conversion NUMJOINTS initState
    "! 90 -90 - - - - - - - - - - - - - - - - - - - - - - - 500".data
    ⟨500, ⟨[], []⟩, false, false, ⟨[0, 1], [1/2, -1/2]⟩,
      [⟨500, ⟨[0, 1], [1/2, -1/2]⟩, ⟨[0, 1], [1, 1]⟩⟩]⟩
    (by with_unfolding_all rfl) (by with_unfolding_all rfl)
  refine ⟨?_, by with_unfolding_all rfl, by with_unfolding_all rfl⟩
  have hkf : (parse NUMJOINTS
      [ "! 90 -90 - - - - - - - - - - - - - - - - - - - - - - - 500" ]).keyFrames =
      [⟨500, ⟨[0, 1], [1/2, -1/2]⟩, ⟨[0, 1], [1, 1]⟩⟩] := by with_unfolding_all rfl
  have hdeg : lineDegrees NUMJOINTS
      "! 90 -90 - - - - - - - - - - - - - - - - - - - - - - - 500".data = [90, -90] := by
    with_unfolding_all rfl
  have h1 : (([⟨500, ⟨[0, 1], [1/2, -1/2]⟩, ⟨[0, 1], [1, 1]⟩⟩] : List KeyFrame).getLastD
      default).jointPositions.positions.map (fun q : ℚ => (q : ℝ) * Real.pi) =
      (lineDegrees NUMJOINTS
        "! 90 -90 - - - - - - - - - - - - - - - - - - - - - - - 500".data).map
        (fun d : ℚ => (d : ℝ) * Real.pi / 180) := h.1
  rw [hkf, h1, hdeg]
  simp only [List.map_cons, List.map_nil, List.cons.injEq, and_true]
  refine ⟨?_, ?_⟩
  · push_cast
    ring
  · push_cast
    ring

end parser

namespace parser

/-- C10: on every successful parse the number of emitted keyframes equals
the number of input lines whose first character is `!` — one keyframe per
position directive; in particular directives that are not position lines
(including a trailing stiffness directive) contribute none. -/
theorem keyframe_count_eq_position_lines (nj : Nat) (input : List String)
    (hsucc : (parse nj input).successful = true) :
    (parse nj input).keyFrames.length =
      (input.map String.data).countP (fun l => lineFront l = '!') := by
  cases hp : parseLines nj initState (input.map String.data) with
  | error e => simp only [parse, hp] at hsucc; exact Bool.noConfusion hsucc
  | ok st =>
      have hcount := parseLines_count hp
      have hres : (parse nj input).keyFrames = st.keyFrames := by simp only [parse, hp]
      rw [hres, hcount]
      simp [initState]

/-- C10 witness: a position line followed by a trailing stiffness directive
parses successfully with exactly one keyframe — the stiffness line adds
none and does not prevent success. -/
theorem keyframe_count_eq_position_lines_app :
    (parse NUMJOINTS [ "! 30 - - - - - - - - - - - - - - - - - - - - - - - - 400",
        "$ 0.5 - - - - - - - - - - - - - - - - - - - - - - - -" ]
      ).keyFrames.length =
      ([ "! 30 - - - - - - - - - - - - - - - - - - - - - - - - 400",
        "$ 0.5 - - - - - - - - - - - - - - - - - - - - - - - -" ].map String.data
        ).countP (fun l => lineFront l = '!') ∧
    (parse NUMJOINTS [ "! 30 - - - - - - - - - - - - - - - - - - - - - - - - 400",
        "$ 0.5 - - - - - - - - - - - - - - - - - - - - - - - -" ]).successful = true ∧
    (parse NUMJOINTS [ "! 30 - - - - - - - - - - - - - - - - - - - - - - - - 400",
        "$ 0.5 - - - - - - - - - - - - - - - - - - - - - - - -" ]).keyFrames.length = 1 :=
  ⟨keyframe_count_eq_position_lines NUMJOINTS _ (by with_unfolding_all rfl),
   by with_unfolding_all rfl, by with_unfolding_all rfl⟩

end parser
